import Mathlib

/-!
Verification of the worktime-tracker data layer (src/app.py).

Modelling conventions:
* Monetary amounts and hours are rationals (ℚ); Python's binary `round(x, 2)`
  (round-half-to-even) is modelled exactly on ℚ by `round2`.
* A loaded Records table is a `List Record`; the raw ID column, after the
  `pd.to_numeric(..., errors="coerce")` parse of `load_records`, is a
  `List (Option ℤ)` where `none` stands for a NaN (blank / non-parseable) cell.
* Each page's save handler is modelled as a pure function from the freshly
  loaded table and the form inputs to the table that `save_all` would persist;
  `none` marks the early-error paths that return before any write.
-/

namespace WorktimeTracker

/-- Round-half-to-even of a rational to an integer, the tie-breaking rule of
Python's built-in `round`. -/
def roundHalfEven (x : ℚ) : ℤ :=
  if x - Int.floor x < 1 / 2 then Int.floor x
  else if 1 / 2 < x - Int.floor x then Int.floor x + 1
  else if Int.floor x % 2 = 0 then Int.floor x else Int.floor x + 1

/-- Python `round(x, 2)` on a rational. -/
def round2 (x : ℚ) : ℚ := (roundHalfEven (x * 100) : ℚ) / 100

/-- src/app.py lines 49-50: `calc_price(duration_min) = round(duration_min / 60 * 65, 2)`. -/
def calc_price (duration_min : ℤ) : ℚ := round2 ((duration_min : ℚ) / 60 * 65)

/-- One row of the Records table (the ten columns of `COLUMNS`, src/app.py
lines 31-42): ID, 日期 (date), 员工姓名 (employeeName), 客人姓名 (clientName),
服务项目 (serviceType), 服务时长(分钟) (durationMinutes), 工时(小时) (hours),
服务收入 (serviceIncome), 小费 (tip), 总收入 (totalIncome). -/
structure Record where
  id : ℤ
  date : String
  employeeName : String
  clientName : String
  serviceType : String
  durationMinutes : ℤ
  hours : ℚ
  serviceIncome : ℚ
  tip : ℚ
  totalIncome : ℚ
deriving DecidableEq, Repr

/-- `df["ID"].max()` over the valid (non-NaN) entries of the ID column, as in
src/app.py line 119; the `0` default is unreachable in context, where the
list is nonempty. -/
def listMaxInt : List ℤ → ℤ
  | [] => 0
  | x :: xs => xs.foldl max x

/-- The loop of src/app.py lines 120-123: walk the parsed ID column in row
order, keep valid IDs, and give each blank the next counter value above `m`
(`max_id += 1; df.at[idx, "ID"] = max_id`). -/
def assignBlanks : List (Option ℤ) → ℤ → List ℤ
  | [], _ => []
  | some v :: rest, m => v :: assignBlanks rest m
  | none :: rest, m => (m + 1) :: assignBlanks rest (m + 1)

/-- The ID repair of `load_records`, src/app.py lines 114-125: after
`pd.to_numeric(df["ID"], errors="coerce")`, if every entry is NaN assign
`range(1, len(df) + 1)`; otherwise assign `max_id + 1, max_id + 2, ...` to the
NaN entries in row order, `max_id` being the largest valid entry. -/
def repairIDs (ids : List (Option ℤ)) : List ℤ :=
  if ids.all fun o => o.isNone then
    (List.range ids.length).map fun i : ℕ => (i : ℤ) + 1
  else
    assignBlanks ids (listMaxInt (ids.filterMap id))

lemma le_foldl_max (xs : List ℤ) (a : ℤ) : a ≤ xs.foldl max a := by
  induction xs generalizing a with
  | nil => exact le_refl a
  | cons x xs ih => exact le_trans (le_max_left a x) (ih (max a x))

lemma mem_le_foldl_max (xs : List ℤ) (a : ℤ) : ∀ x ∈ xs, x ≤ xs.foldl max a := by
  induction xs generalizing a with
  | nil => intro x hx; exact absurd hx (List.not_mem_nil x)
  | cons y ys ih =>
    intro x hx
    rcases List.mem_cons.mp hx with rfl | hmem
    · exact le_trans (le_max_right a x) (le_foldl_max ys (max a x))
    · exact ih (max a y) x hmem

lemma le_listMaxInt {xs : List ℤ} {x : ℤ} (hx : x ∈ xs) : x ≤ listMaxInt xs := by
  cases xs with
  | nil => exact absurd hx (List.not_mem_nil x)
  | cons y ys =>
    rcases List.mem_cons.mp hx with rfl | hmem
    · exact le_foldl_max ys x
    · exact mem_le_foldl_max ys y x hmem

lemma foldl_max_mem (xs : List ℤ) (a : ℤ) : xs.foldl max a = a ∨ xs.foldl max a ∈ xs := by
  induction xs generalizing a with
  | nil => exact Or.inl rfl
  | cons y ys ih =>
    rcases ih (max a y) with h | h
    · rcases max_choice a y with hm | hm
      · exact Or.inl (by rw [List.foldl_cons, h, hm])
      · exact Or.inr (by rw [List.foldl_cons, h, hm]; exact List.mem_cons_self y ys)
    · exact Or.inr (List.mem_cons_of_mem y h)

lemma listMaxInt_mem {xs : List ℤ} (h : xs ≠ []) : listMaxInt xs ∈ xs := by
  cases xs with
  | nil => exact absurd rfl h
  | cons y ys =>
    rcases foldl_max_mem ys y with h1 | h1
    · rw [listMaxInt, h1]; exact List.mem_cons_self y ys
    · exact List.mem_cons_of_mem y h1

lemma mem_filterMap_id {ids : List (Option ℤ)} {v : ℤ} :
    v ∈ ids.filterMap id ↔ some v ∈ ids := by
  rw [List.mem_filterMap]
  constructor
  · rintro ⟨a, ha, rfl⟩; exact ha
  · intro h; exact ⟨some v, h, rfl⟩

lemma assignBlanks_length (ids : List (Option ℤ)) (m : ℤ) :
    (assignBlanks ids m).length = ids.length := by
  induction ids generalizing m with
  | nil => rfl
  | cons o rest ih =>
    cases o with
    | some v => simp [assignBlanks, ih m]
    | none => simp [assignBlanks, ih (m + 1)]

lemma assignBlanks_map_some (l : List ℤ) (m : ℤ) :
    assignBlanks (l.map some) m = l := by
  induction l with
  | nil => rfl
  | cons x xs ih => simp [assignBlanks, ih]

lemma mem_assignBlanks {ids : List (Option ℤ)} {m x : ℤ}
    (hx : x ∈ assignBlanks ids m) : some x ∈ ids ∨ m < x := by
  induction ids generalizing m with
  | nil => exact absurd hx (List.not_mem_nil x)
  | cons o rest ih =>
    cases o with
    | some v =>
      rcases List.mem_cons.mp hx with rfl | hmem
      · exact Or.inl (List.mem_cons_self _ _)
      · rcases ih hmem with h | h
        · exact Or.inl (List.mem_cons_of_mem _ h)
        · exact Or.inr h
    | none =>
      rcases List.mem_cons.mp hx with rfl | hmem
      · exact Or.inr (by omega)
      · rcases ih hmem with h | h
        · exact Or.inl (List.mem_cons_of_mem _ h)
        · exact Or.inr (by omega)

lemma assignBlanks_nodup {ids : List (Option ℤ)} {m : ℤ}
    (hnodup : (ids.filterMap id).Nodup)
    (hle : ∀ v : ℤ, some v ∈ ids → v ≤ m) :
    (assignBlanks ids m).Nodup := by
  induction ids generalizing m with
  | nil => exact List.nodup_nil
  | cons o rest ih =>
    cases o with
    | some v =>
      have hfm : (List.filterMap id (some v :: rest)) = v :: rest.filterMap id := by
        simp [List.filterMap_cons]
      rw [hfm] at hnodup
      have hv_notin : v ∉ rest.filterMap id := (List.nodup_cons.mp hnodup).1
      refine List.nodup_cons.mpr ⟨?_, ih (List.nodup_cons.mp hnodup).2
        (fun w hw => hle w (List.mem_cons_of_mem _ hw))⟩
      intro hmem
      rcases mem_assignBlanks hmem with h | h
      · exact hv_notin (mem_filterMap_id.mpr h)
      · exact absurd (hle v (List.mem_cons_self _ _)) (by omega)
    | none =>
      have hfm : (List.filterMap id (none :: rest)) = rest.filterMap id := by
        simp [List.filterMap_cons]
      rw [hfm] at hnodup
      refine List.nodup_cons.mpr ⟨?_, ih hnodup
        (fun w hw => le_trans (hle w (List.mem_cons_of_mem _ hw)) (by omega))⟩
      intro hmem
      rcases mem_assignBlanks hmem with h | h
      · have := hle (m + 1) (List.mem_cons_of_mem _ h)
        omega
      · omega

lemma assignBlanks_getElem_some {ids : List (Option ℤ)} {m : ℤ} {i : ℕ} {v : ℤ}
    (h : ids[i]? = some (some v)) : (assignBlanks ids m)[i]? = some v := by
  induction ids generalizing m i with
  | nil => simp at h
  | cons o rest ih =>
    cases i with
    | zero =>
      simp at h
      subst h
      simp [assignBlanks]
    | succ j =>
      cases o with
      | some w =>
        have : rest[j]? = some (some v) := by simpa using h
        simpa [assignBlanks] using ih (m := m) this
      | none =>
        have : rest[j]? = some (some v) := by simpa using h
        simpa [assignBlanks] using ih (m := m + 1) this

lemma assignBlanks_getElem_none {ids : List (Option ℤ)} {m : ℤ} {i : ℕ}
    (h : ids[i]? = some none) :
    ∀ w : ℤ, (assignBlanks ids m)[i]? = some w → m < w := by
  induction ids generalizing m i with
  | nil => simp at h
  | cons o rest ih =>
    cases i with
    | zero =>
      simp at h
      subst h
      intro w hw
      simp [assignBlanks] at hw
      omega
    | succ j =>
      have hrest : rest[j]? = some none := by simpa using h
      cases o with
      | some v =>
        intro w hw
        have : (assignBlanks rest m)[j]? = some w := by simpa [assignBlanks] using hw
        exact ih hrest w this
      | none =>
        intro w hw
        have : (assignBlanks rest (m + 1))[j]? = some w := by
          simpa [assignBlanks] using hw
        have := ih hrest w this
        omega

lemma assignBlanks_zip (ids : List (Option ℤ)) (m : ℤ) :
    ((ids.zip (assignBlanks ids m)).filter fun p => p.1.isNone).map Prod.snd =
      (List.range (ids.count none)).map fun i : ℕ => m + (i : ℤ) + 1 := by
  induction ids generalizing m with
  | nil => rfl
  | cons o rest ih =>
    cases o with
    | some v =>
      have hc : (some v :: rest).count none = rest.count none := by
        simp [List.count_cons]
      rw [hc, show assignBlanks (some v :: rest) m = v :: assignBlanks rest m from rfl,
        List.zip_cons_cons]
      have hstep : ((some v, v) :: rest.zip (assignBlanks rest m)).filter
          (fun p => p.1.isNone) =
          (rest.zip (assignBlanks rest m)).filter (fun p => p.1.isNone) := rfl
      rw [hstep]
      exact ih m
    | none =>
      have hc : (none :: rest).count none = rest.count none + 1 := by
        simp [List.count_cons]
      rw [hc]
      have hL : (((none :: rest).zip (assignBlanks (none :: rest) m)).filter
          (fun p => p.1.isNone)).map Prod.snd =
          (m + 1) :: ((rest.zip (assignBlanks rest (m + 1))).filter
            (fun p => p.1.isNone)).map Prod.snd := rfl
      rw [hL, ih (m + 1), List.range_succ_eq_map, List.map_cons, List.map_map]
      have hfuns : ((fun i : ℕ => m + (i : ℤ) + 1) ∘ Nat.succ) =
          fun i : ℕ => (m + 1) + (i : ℤ) + 1 := by
        funext i
        simp only [Function.comp_apply]
        push_cast
        ring
      rw [hfuns]
      norm_num

/-- C2 (amended): after the ID repair of `load_records`, provided the already
valid (parseable) IDs in the loaded column are pairwise distinct and positive,
every row carries a unique positive integer ID; if every row is blank the rows
receive IDs 1..N in row order, valid IDs are kept in place, the blank rows in
order receive maxId+1, maxId+2, ... where maxId is the largest valid ID, and
every freshly assigned ID is strictly larger than every valid ID already
present (never reused). -/
theorem repaired_ids_unique_positive (ids : List (Option ℤ))
    (hpos : ∀ v : ℤ, some v ∈ ids → 0 < v)
    (hnodup : (ids.filterMap id).Nodup) :
    (repairIDs ids).length = ids.length ∧
    (∀ x ∈ repairIDs ids, 0 < x) ∧
    (repairIDs ids).Nodup ∧
    ((∀ o ∈ ids, o = none) →
      repairIDs ids = (List.range ids.length).map fun i : ℕ => (i : ℤ) + 1) ∧
    (∀ i : ℕ, ∀ v : ℤ, ids[i]? = some (some v) → (repairIDs ids)[i]? = some v) ∧
    ((¬ ∀ o ∈ ids, o = none) →
      ((ids.zip (repairIDs ids)).filter fun p => p.1.isNone).map Prod.snd =
        (List.range (ids.count none)).map
          fun i : ℕ => listMaxInt (ids.filterMap id) + (i : ℤ) + 1) ∧
    (∀ i : ℕ, ids[i]? = some none → ∀ w : ℤ, (repairIDs ids)[i]? = some w →
      ∀ v : ℤ, some v ∈ ids → v < w) := by
  by_cases hall : (ids.all fun o => o.isNone) = true
  · have hrep : repairIDs ids = (List.range ids.length).map fun i : ℕ => (i : ℤ) + 1 := by
      unfold repairIDs
      rw [if_pos hall]
    have hblank : ∀ o ∈ ids, o = none := by
      intro o ho
      exact Option.isNone_iff_eq_none.mp (List.all_eq_true.mp hall o ho)
    refine ⟨?_, ?_, ?_, fun _ => hrep, ?_, ?_, ?_⟩
    · rw [hrep]; simp
    · intro x hx
      rw [hrep] at hx
      rw [List.mem_map] at hx
      obtain ⟨i, _, rfl⟩ := hx
      positivity
    · rw [hrep]
      exact List.Nodup.map (fun a b hab => by omega) (List.nodup_range _)
    · intro i v h
      have hmem : some v ∈ ids := List.getElem?_mem h
      exact absurd (hblank _ hmem) (by simp)
    · intro hnot
      exact absurd hblank hnot
    · intro i _ w _ v hv
      exact absurd (hblank _ hv) (by simp)
  · have hex : ∃ v : ℤ, some v ∈ ids := by
      by_contra hno
      apply hall
      rw [List.all_eq_true]
      intro o ho
      cases o with
      | none => rfl
      | some v => exact absurd ⟨v, ho⟩ hno
    obtain ⟨v0, hv0⟩ := hex
    have hfm_ne : ids.filterMap id ≠ [] := by
      intro hnil
      have := mem_filterMap_id.mpr hv0
      rw [hnil] at this
      exact absurd this (List.not_mem_nil v0)
    have hm_mem : listMaxInt (ids.filterMap id) ∈ ids.filterMap id := listMaxInt_mem hfm_ne
    have hm_pos : 0 < listMaxInt (ids.filterMap id) :=
      hpos _ (mem_filterMap_id.mp hm_mem)
    have hle : ∀ w : ℤ, some w ∈ ids → w ≤ listMaxInt (ids.filterMap id) :=
      fun w hw => le_listMaxInt (mem_filterMap_id.mpr hw)
    have hrep : repairIDs ids = assignBlanks ids (listMaxInt (ids.filterMap id)) := by
      unfold repairIDs
      rw [if_neg hall]
    refine ⟨?_, ?_, ?_, ?_, ?_, ?_, ?_⟩
    · rw [hrep]; exact assignBlanks_length ids _
    · intro x hx
      rw [hrep] at hx
      rcases mem_assignBlanks hx with h | h
      · exact hpos x h
      · omega
    · rw [hrep]; exact assignBlanks_nodup hnodup hle
    · intro h
      exact absurd (h _ hv0) (by simp)
    · intro i v h
      rw [hrep]
      exact assignBlanks_getElem_some h
    · intro _
      rw [hrep]
      exact assignBlanks_zip ids _
    · intro i hnone w hw v hv
      rw [hrep] at hw
      have h1 := assignBlanks_getElem_none hnone w hw
      have h2 := hle v hv
      omega

/-- Witness for `repaired_ids_unique_positive` at the concrete parsed ID
column [2, blank, 5, blank]. -/
theorem repaired_ids_unique_positive_witness :
    (∀ v : ℤ, some v ∈ ([some 2, none, some 5, none] : List (Option ℤ)) → 0 < v) ∧
    (([some 2, none, some 5, none] : List (Option ℤ)).filterMap id).Nodup ∧
    ((repairIDs [some 2, none, some 5, none]).length =
        ([some 2, none, some 5, none] : List (Option ℤ)).length ∧
      (∀ x ∈ repairIDs [some 2, none, some 5, none], 0 < x) ∧
      (repairIDs [some 2, none, some 5, none]).Nodup ∧
      ((∀ o ∈ ([some 2, none, some 5, none] : List (Option ℤ)), o = none) →
        repairIDs [some 2, none, some 5, none] =
          (List.range ([some 2, none, some 5, none] : List (Option ℤ)).length).map
            fun i : ℕ => (i : ℤ) + 1) ∧
      (∀ i : ℕ, ∀ v : ℤ,
        ([some 2, none, some 5, none] : List (Option ℤ))[i]? = some (some v) →
        (repairIDs [some 2, none, some 5, none])[i]? = some v) ∧
      ((¬ ∀ o ∈ ([some 2, none, some 5, none] : List (Option ℤ)), o = none) →
        ((([some 2, none, some 5, none] : List (Option ℤ)).zip
            (repairIDs [some 2, none, some 5, none])).filter
              fun p => p.1.isNone).map Prod.snd =
          (List.range (([some 2, none, some 5, none] : List (Option ℤ)).count none)).map
            fun i : ℕ =>
              listMaxInt (([some 2, none, some 5, none] : List (Option ℤ)).filterMap id) +
                (i : ℤ) + 1) ∧
      (∀ i : ℕ, ([some 2, none, some 5, none] : List (Option ℤ))[i]? = some none →
        ∀ w : ℤ, (repairIDs [some 2, none, some 5, none])[i]? = some w →
        ∀ v : ℤ, some v ∈ ([some 2, none, some 5, none] : List (Option ℤ)) → v < w)) := by
  have hp : ∀ v : ℤ, some v ∈ ([some 2, none, some 5, none] : List (Option ℤ)) → 0 < v := by
    intro v hv
    simp only [List.mem_cons, List.not_mem_nil, or_false, reduceCtorEq, false_or,
      Option.some.injEq] at hv
    rcases hv with rfl | rfl <;> norm_num
  have hn : (([some 2, none, some 5, none] : List (Option ℤ)).filterMap id).Nodup := by
    decide
  exact ⟨hp, hn, repaired_ids_unique_positive [some 2, none, some 5, none] hp hn⟩

/-- C2 counterexample: the claim as stated fails on the code — a loaded table
whose ID column already contains the duplicate valid IDs [1, 1] is left
unchanged by the repair, so not every row ends up with a unique ID. -/
theorem repaired_ids_unique_positive_cex :
    repairIDs [some 1, some 1] = [1, 1] ∧ ¬ (repairIDs [some 1, some 1]).Nodup := by
  constructor
  · decide
  · decide

/-- C3: the ID repair of `load_records` is idempotent — on a column whose
entries are all valid integers it changes nothing, so in particular repairing
the output of a previous repair (a reload without an intervening save) yields
the same ID column. -/
theorem repairIDs_idempotent (ids : List ℤ) (raw : List (Option ℤ)) :
    repairIDs (ids.map some) = ids ∧
    repairIDs ((repairIDs raw).map some) = repairIDs raw := by
  have key : ∀ l : List ℤ, repairIDs (l.map some) = l := by
    intro l
    cases l with
    | nil => rfl
    | cons x xs =>
      unfold repairIDs
      rw [if_neg (by simp)]
      exact assignBlanks_map_some _ _
  exact ⟨key ids, key _⟩

/-- The record dict built by the save handler of `page_add_record`,
src/app.py lines 286, 313-331: `hours = round(duration / 60, 2)`,
`total_income = round(service_income + tip, 2)`, `服务项目 = "Massage"`. -/
def mkRecord (newId : ℤ) (dateStr staffName clientName : String)
    (duration : ℤ) (serviceIncome tip : ℚ) : Record :=
  { id := newId
    date := dateStr
    employeeName := staffName
    clientName := clientName
    serviceType := "Massage"
    durationMinutes := duration
    hours := round2 ((duration : ℚ) / 60)
    serviceIncome := serviceIncome
    tip := tip
    totalIncome := round2 (serviceIncome + tip) }

/-- The save handler of `page_add_record`, src/app.py lines 308-338, as a
function of the freshly loaded table and the form inputs: `none` is the
validation-error early return (empty staff or client name, no write);
otherwise the new record gets ID `max + 1` (or `1` on an empty table) and is
appended, and the resulting table is passed to `save_all`. -/
def page_add_record_save (table : List Record) (dateStr staffName clientName : String)
    (duration : ℤ) (serviceIncome tip : ℚ) : Option (List Record) :=
  if staffName = "" ∨ clientName = "" then none
  else
    let newId : ℤ := if table.isEmpty then 1 else listMaxInt (table.map Record.id) + 1
    some (table ++ [mkRecord newId dateStr staffName clientName duration serviceIncome tip])

/-- The field updates of the `page_summary` edit handler, src/app.py lines
504-511, applied to the matched row. -/
def applyEdit (dateStr staffName clientName : String)
    (duration : ℤ) (serviceIncome tip : ℚ) (r : Record) : Record :=
  { r with
    date := dateStr
    employeeName := staffName
    clientName := clientName
    durationMinutes := duration
    hours := round2 ((duration : ℚ) / 60)
    serviceIncome := serviceIncome
    tip := tip
    totalIncome := round2 (serviceIncome + tip) }

/-- `df_all.at[idx, ...] = ...` where `idx = df_all[df_all["ID"] == edit_id].index[0]`:
update the first row whose ID matches, leave all others untouched. -/
def updateFirst (f : Record → Record) (editId : ℤ) : List Record → List Record
  | [] => []
  | r :: rest => if r.id = editId then f r :: rest else r :: updateFirst f editId rest

/-- The save handler of the `page_summary` edit form, src/app.py lines
496-514: reload the table fresh, error out (no write) when the chosen ID is
gone, otherwise rewrite the matched row's fields and persist. -/
def page_summary_save_edit (table : List Record) (editId : ℤ)
    (dateStr staffName clientName : String)
    (duration : ℤ) (serviceIncome tip : ℚ) : Option (List Record) :=
  if (table.filter fun r => decide (r.id = editId)).isEmpty then none
  else some (updateFirst (applyEdit dateStr staffName clientName duration serviceIncome tip)
    editId table)

/-- The delete handler of `page_delete_records`, src/app.py lines 571-575:
`df_all = df_all[~df_all["ID"].isin(selected_ids)]` on the freshly reloaded
table. -/
def page_delete_selected (table : List Record) (ids : List ℤ) : List Record :=
  table.filter fun r => !(decide (r.id ∈ ids))

/-- The derived-field consistency of a stored record: `总收入` is
`round(服务收入 + 小费, 2)` and `工时(小时)` is `round(服务时长 / 60, 2)`. -/
def derivedInvariant (r : Record) : Prop :=
  r.totalIncome = round2 (r.serviceIncome + r.tip) ∧
  r.hours = round2 ((r.durationMinutes : ℚ) / 60)

lemma mem_updateFirst {f : Record → Record} {editId : ℤ} {l : List Record} {r : Record}
    (hr : r ∈ updateFirst f editId l) : r ∈ l ∨ ∃ s ∈ l, r = f s := by
  induction l with
  | nil => exact absurd hr (List.not_mem_nil r)
  | cons x xs ih =>
    rw [updateFirst] at hr
    by_cases hx : x.id = editId
    · rw [if_pos hx] at hr
      rcases List.mem_cons.mp hr with rfl | hmem
      · exact Or.inr ⟨x, List.mem_cons_self _ _, rfl⟩
      · exact Or.inl (List.mem_cons_of_mem _ hmem)
    · rw [if_neg hx] at hr
      rcases List.mem_cons.mp hr with rfl | hmem
      · exact Or.inl (List.mem_cons_self _ _)
      · rcases ih hmem with h | ⟨s, hs, rfl⟩
        · exact Or.inl (List.mem_cons_of_mem _ h)
        · exact Or.inr ⟨s, List.mem_cons_of_mem _ hs, rfl⟩

/-- C1: every record stored by a create (`page_add_record` save) or an update
(`page_summary` save-edit) — i.e. every row of the persisted table that was
not already part of the loaded table — satisfies
`totalIncome = round(serviceIncome + tip, 2)` and
`hours = round(durationMinutes / 60, 2)` at the moment of the write. -/
theorem stored_derived_fields_invariant
    (table t1 t2 : List Record) (dateStr staffName clientName : String)
    (duration : ℤ) (serviceIncome tip : ℚ) (editId : ℤ)
    (h1 : page_add_record_save table dateStr staffName clientName duration serviceIncome tip
      = some t1)
    (h2 : page_summary_save_edit table editId dateStr staffName clientName duration
      serviceIncome tip = some t2) :
    (∀ r ∈ t1, r ∈ table ∨ derivedInvariant r) ∧
    (∀ r ∈ t2, r ∈ table ∨ derivedInvariant r) := by
  constructor
  · unfold page_add_record_save at h1
    by_cases hval : staffName = "" ∨ clientName = ""
    · rw [if_pos hval] at h1
      exact absurd h1 (by simp)
    · rw [if_neg hval] at h1
      have ht1 : t1 = table ++
          [mkRecord (if table.isEmpty then 1 else listMaxInt (table.map Record.id) + 1)
            dateStr staffName clientName duration serviceIncome tip] := by
        exact (Option.some.injEq _ _ ▸ h1.symm)
      intro r hr
      rw [ht1] at hr
      rcases List.mem_append.mp hr with h | h
      · exact Or.inl h
      · have : r = mkRecord (if table.isEmpty then 1
            else listMaxInt (table.map Record.id) + 1)
            dateStr staffName clientName duration serviceIncome tip := by
          simpa using h
        subst this
        exact Or.inr ⟨rfl, rfl⟩
  · unfold page_summary_save_edit at h2
    by_cases hfil : (table.filter fun r => decide (r.id = editId)).isEmpty = true
    · rw [if_pos hfil] at h2
      exact absurd h2 (by simp)
    · rw [if_neg hfil] at h2
      have ht2 : t2 = updateFirst
          (applyEdit dateStr staffName clientName duration serviceIncome tip)
          editId table := by
        exact (Option.some.injEq _ _ ▸ h2.symm)
      intro r hr
      rw [ht2] at hr
      rcases mem_updateFirst hr with h | ⟨s, _, rfl⟩
      · exact Or.inl h
      · exact Or.inr ⟨rfl, rfl⟩

/-- Witness for `stored_derived_fields_invariant` on a concrete one-row table,
a concrete create and a concrete edit of row 1. -/
theorem stored_derived_fields_invariant_witness :
    page_add_record_save [mkRecord 1 "2025-10-01" "A" "B" 60 65 0]
        "2025-10-02" "A" "C" 90 100 2
      = some ([mkRecord 1 "2025-10-01" "A" "B" 60 65 0] ++
        [mkRecord 2 "2025-10-02" "A" "C" 90 100 2]) ∧
    page_summary_save_edit [mkRecord 1 "2025-10-01" "A" "B" 60 65 0] 1
        "2025-10-02" "A" "C" 90 100 2
      = some (updateFirst (applyEdit "2025-10-02" "A" "C" 90 100 2) 1
        [mkRecord 1 "2025-10-01" "A" "B" 60 65 0]) ∧
    ((∀ r ∈ [mkRecord 1 "2025-10-01" "A" "B" 60 65 0] ++
        [mkRecord 2 "2025-10-02" "A" "C" 90 100 2],
        r ∈ [mkRecord 1 "2025-10-01" "A" "B" 60 65 0] ∨ derivedInvariant r) ∧
      (∀ r ∈ updateFirst (applyEdit "2025-10-02" "A" "C" 90 100 2) 1
          [mkRecord 1 "2025-10-01" "A" "B" 60 65 0],
        r ∈ [mkRecord 1 "2025-10-01" "A" "B" 60 65 0] ∨ derivedInvariant r)) := by
  have h1 : page_add_record_save [mkRecord 1 "2025-10-01" "A" "B" 60 65 0]
      "2025-10-02" "A" "C" 90 100 2
      = some ([mkRecord 1 "2025-10-01" "A" "B" 60 65 0] ++
        [mkRecord 2 "2025-10-02" "A" "C" 90 100 2]) := by
    have hval : ¬(("A" : String) = "" ∨ ("C" : String) = "") := by simp
    unfold page_add_record_save
    rw [if_neg hval]
    norm_num [mkRecord, listMaxInt]
  have h2 : page_summary_save_edit [mkRecord 1 "2025-10-01" "A" "B" 60 65 0] 1
      "2025-10-02" "A" "C" 90 100 2
      = some (updateFirst (applyEdit "2025-10-02" "A" "C" 90 100 2) 1
        [mkRecord 1 "2025-10-01" "A" "B" 60 65 0]) := by
    norm_num [page_summary_save_edit, mkRecord]
  exact ⟨h1, h2, stored_derived_fields_invariant _ _ _ _ _ _ _ _ _ _ h1 h2⟩

/-- C4: on create the new record's ID is `max(existing IDs) + 1`, or `1` on an
empty table, computed against the loaded table; hence on a non-empty table the
assigned ID is strictly greater than every existing ID at call time. -/
theorem new_record_id_strictly_greater
    (table t1 : List Record) (dateStr staffName clientName : String)
    (duration : ℤ) (serviceIncome tip : ℚ)
    (h1 : page_add_record_save table dateStr staffName clientName duration serviceIncome tip
      = some t1) :
    ∃ r : Record, t1 = table ++ [r] ∧
      r.id = (if table.isEmpty then 1 else listMaxInt (table.map Record.id) + 1) ∧
      ∀ s ∈ table, s.id < r.id := by
  unfold page_add_record_save at h1
  by_cases hval : staffName = "" ∨ clientName = ""
  · rw [if_pos hval] at h1
    exact absurd h1 (by simp)
  · rw [if_neg hval] at h1
    refine ⟨mkRecord (if table.isEmpty then 1 else listMaxInt (table.map Record.id) + 1)
      dateStr staffName clientName duration serviceIncome tip,
      (Option.some.injEq _ _ ▸ h1.symm), rfl, ?_⟩
    intro s hs
    have hne : table.isEmpty = false := by
      cases table with
      | nil => exact absurd hs (List.not_mem_nil s)
      | cons a l => rfl
    have hid : (mkRecord (if table.isEmpty then 1 else listMaxInt (table.map Record.id) + 1)
        dateStr staffName clientName duration serviceIncome tip).id =
        (if table.isEmpty then 1 else listMaxInt (table.map Record.id) + 1) := rfl
    rw [hid, hne]
    have hle2 : s.id ≤ listMaxInt (table.map Record.id) :=
      le_listMaxInt (List.mem_map.mpr ⟨s, hs, rfl⟩)
    simp only [Bool.false_eq_true, if_false]
    omega

/-- Witness for `new_record_id_strictly_greater` at a concrete two-row table
with IDs 1 and 7. -/
theorem new_record_id_strictly_greater_witness :
    page_add_record_save
        [mkRecord 1 "2025-10-01" "A" "B" 60 65 0, mkRecord 7 "2025-10-03" "D" "E" 30 (65 / 2) 1]
        "2025-10-04" "A" "F" 45 50 0
      = some ([mkRecord 1 "2025-10-01" "A" "B" 60 65 0,
          mkRecord 7 "2025-10-03" "D" "E" 30 (65 / 2) 1] ++
          [mkRecord 8 "2025-10-04" "A" "F" 45 50 0]) ∧
    (∃ r : Record,
      ([mkRecord 1 "2025-10-01" "A" "B" 60 65 0,
          mkRecord 7 "2025-10-03" "D" "E" 30 (65 / 2) 1] ++
          [mkRecord 8 "2025-10-04" "A" "F" 45 50 0]) =
        [mkRecord 1 "2025-10-01" "A" "B" 60 65 0,
          mkRecord 7 "2025-10-03" "D" "E" 30 (65 / 2) 1] ++ [r] ∧
      r.id = (if ([mkRecord 1 "2025-10-01" "A" "B" 60 65 0,
          mkRecord 7 "2025-10-03" "D" "E" 30 (65 / 2) 1] : List Record).isEmpty then 1
        else listMaxInt (([mkRecord 1 "2025-10-01" "A" "B" 60 65 0,
          mkRecord 7 "2025-10-03" "D" "E" 30 (65 / 2) 1] : List Record).map Record.id) + 1) ∧
      ∀ s ∈ [mkRecord 1 "2025-10-01" "A" "B" 60 65 0,
          mkRecord 7 "2025-10-03" "D" "E" 30 (65 / 2) 1], s.id < r.id) := by
  have h1 : page_add_record_save
      [mkRecord 1 "2025-10-01" "A" "B" 60 65 0, mkRecord 7 "2025-10-03" "D" "E" 30 (65 / 2) 1]
      "2025-10-04" "A" "F" 45 50 0
      = some ([mkRecord 1 "2025-10-01" "A" "B" 60 65 0,
          mkRecord 7 "2025-10-03" "D" "E" 30 (65 / 2) 1] ++
          [mkRecord 8 "2025-10-04" "A" "F" 45 50 0]) := by
    have hval : ¬(("A" : String) = "" ∨ ("F" : String) = "") := by simp
    unfold page_add_record_save
    rw [if_neg hval]
    norm_num [mkRecord, listMaxInt, max_def]
  exact ⟨h1, new_record_id_strictly_greater _ _ _ _ _ _ _ _ h1⟩

/-- C5: `calc_price(d) = round(d / 60 * 65, 2)` for every integer duration
(a pure total function), with `calc_price 60 = 65.00` and
`calc_price 90 = 97.50`. -/
theorem calc_price_spec :
    (∀ d : ℤ, calc_price d = round2 ((d : ℚ) / 60 * 65)) ∧
    calc_price 60 = 65 ∧ calc_price 90 = 195 / 2 := by
  refine ⟨fun d => rfl, ?_, ?_⟩
  · norm_num [calc_price, round2, roundHalfEven]
  · norm_num [calc_price, round2, roundHalfEven]

/-- C7: an edit whose target ID is absent from the freshly reloaded table
fails (the handler errors out before `save_all`), so no write is performed and
the persisted table is exactly the loaded one. -/
theorem edit_missing_id_no_write
    (table : List Record) (editId : ℤ) (dateStr staffName clientName : String)
    (duration : ℤ) (serviceIncome tip : ℚ)
    (h : ∀ r ∈ table, r.id ≠ editId) :
    page_summary_save_edit table editId dateStr staffName clientName duration serviceIncome tip
      = none := by
  unfold page_summary_save_edit
  have hfil : (table.filter fun r => decide (r.id = editId)) = [] := by
    rw [List.filter_eq_nil_iff]
    intro a ha
    simpa using h a ha
  rw [hfil]
  rfl

/-- Witness for `edit_missing_id_no_write`: editing the absent ID 2 of a
concrete one-row table performs no write. -/
theorem edit_missing_id_no_write_witness :
    (∀ r ∈ [mkRecord 1 "2025-10-01" "A" "B" 60 65 0], r.id ≠ 2) ∧
    page_summary_save_edit [mkRecord 1 "2025-10-01" "A" "B" 60 65 0] 2
      "2025-10-02" "A" "C" 90 100 2 = none := by
  have h : ∀ r ∈ [mkRecord 1 "2025-10-01" "A" "B" 60 65 0], r.id ≠ 2 := by decide
  exact ⟨h, edit_missing_id_no_write _ _ _ _ _ _ _ _ h⟩

/-- C8: deleting by ID set removes exactly the rows whose ID is in the set:
the survivors form a sublist of the loaded table (every surviving row keeps
all its field values and its position relative to the others), no survivor's
ID is in the set, every row whose ID is not in the set survives, and the
survivors together with the removed rows are a permutation of the table. -/
theorem delete_records_exact (table : List Record) (ids : List ℤ) :
    List.Sublist (page_delete_selected table ids) table ∧
    (∀ r ∈ page_delete_selected table ids, r.id ∉ ids) ∧
    (∀ r ∈ table, r.id ∉ ids → r ∈ page_delete_selected table ids) ∧
    List.Perm ((table.filter fun r => decide (r.id ∈ ids)) ++ page_delete_selected table ids)
      table := by
  refine ⟨List.filter_sublist table, ?_, ?_, ?_⟩
  · intro r hr
    have := List.of_mem_filter hr
    simpa using this
  · intro r hr hid
    exact List.mem_filter.mpr ⟨hr, by simpa using hid⟩
  · exact List.filter_append_perm (fun r => decide (r.id ∈ ids)) table

/-- Modelled year-month derivation of
`pd.to_datetime(df["日期"], errors="coerce").dt.strftime("%Y-%m")`
(src/app.py lines 216-218 and 393-395), on the ISO `YYYY-MM-DD` date strings
the app itself writes (`date_value.strftime("%Y-%m-%d")`); any other shape
becomes NaT, i.e. `none`. -/
def parseYM (s : String) : Option String :=
  match s.toList with
  | [y1, y2, y3, y4, s1, m1, m2, s2, d1, d2] =>
    if y1.isDigit && y2.isDigit && y3.isDigit && y4.isDigit && s1 == '-' &&
        m1.isDigit && m2.isDigit && s2 == '-' && d1.isDigit && d2.isDigit then
      some (String.mk [y1, y2, y3, y4, s1, m1, m2])
    else none
  | _ => none

/-- Column sum of one numeric field over a group of rows. -/
def sumBy (f : Record → ℚ) (l : List Record) : ℚ := (l.map f).sum

/-- One output row of `make_summary` (src/app.py lines 176-186): the fixed
header 日期, 员工姓名, 工时(小时), 服务收入, 小费, 总收入. -/
structure SummaryRow where
  date : String
  employeeName : String
  hours : ℚ
  serviceIncome : ℚ
  tip : ℚ
  totalIncome : ℚ
deriving DecidableEq, Repr

/-- The lexicographic order on the `(日期, 员工姓名)` grouping key, the order
in which pandas `groupby` (with its default `sort=True`) emits the groups. -/
def pairLE (a b : String × String) : Prop :=
  a.1 < b.1 ∨ (a.1 = b.1 ∧ a.2 ≤ b.2)

instance : DecidableRel pairLE := fun a b =>
  inferInstanceAs (Decidable (a.1 < b.1 ∨ (a.1 = b.1 ∧ a.2 ≤ b.2)))

instance : IsTotal (String × String) pairLE where
  total a b := by
    rcases lt_trichotomy a.1 b.1 with h | h | h
    · exact Or.inl (Or.inl h)
    · rcases le_total a.2 b.2 with h2 | h2
      · exact Or.inl (Or.inr ⟨h, h2⟩)
      · exact Or.inr (Or.inr ⟨h.symm, h2⟩)
    · exact Or.inr (Or.inl h)

instance : IsTrans (String × String) pairLE where
  trans a b c hab hbc := by
    rcases hab with h1 | ⟨e1, l1⟩
    · rcases hbc with h2 | ⟨e2, l2⟩
      · exact Or.inl (lt_trans h1 h2)
      · exact Or.inl (e2 ▸ h1)
    · rcases hbc with h2 | ⟨e2, l2⟩
      · exact Or.inl (e1 ▸ h2)
      · exact Or.inr ⟨e1.trans e2, le_trans l1 l2⟩

/-- The distinct `(日期, 员工姓名)` keys of the table, in the sorted order
pandas `groupby` uses. -/
def groupKeys (records : List Record) : List (String × String) :=
  List.insertionSort pairLE ((records.map fun r => (r.date, r.employeeName)).dedup)

/-- One group row of `make_summary`: the key's rows with the four numeric
columns summed. -/
def summaryRowFor (records : List Record) (k : String × String) : SummaryRow :=
  let grp := records.filter fun r => decide ((r.date, r.employeeName) = k)
  { date := k.1
    employeeName := k.2
    hours := sumBy Record.hours grp
    serviceIncome := sumBy Record.serviceIncome grp
    tip := sumBy Record.tip grp
    totalIncome := sumBy Record.totalIncome grp }

/-- `make_summary`, src/app.py lines 176-186: on an empty table return the
header-only empty result; otherwise group by `(日期, 员工姓名)` and sum
工时(小时), 服务收入, 小费, 总收入 over each group. -/
def make_summary (records : List Record) : List SummaryRow :=
  if records.isEmpty then []
  else (groupKeys records).map (summaryRowFor records)

/-- The distinct year-months present in the table (rows with unparseable
dates dropped), ascending — `sorted(tmp["_ym"].dropna().unique())`,
src/app.py line 230, and the key order of the monthly `groupby`. -/
def monthKeys (records : List Record) : List String :=
  List.insertionSort (fun a b : String => a ≤ b)
    ((records.filterMap fun r => parseYM r.date).dedup)

/-- One output row of the 月度汇总 (monthly summary) sheet: 月份, 服务收入,
小费, 总收入 (src/app.py lines 221-227 and 398-403). -/
structure MonthlyRow where
  month : String
  serviceIncome : ℚ
  tip : ℚ
  totalIncome : ℚ
deriving DecidableEq, Repr

/-- The monthly aggregation view:
`tmp.groupby("_ym")[["服务收入", "小费", "总收入"]].sum().reset_index()`,
src/app.py lines 221-227. Rows whose date does not parse carry a NaN key and
are excluded by `groupby`. -/
def monthly_summary (records : List Record) : List MonthlyRow :=
  (monthKeys records).map fun ym =>
    let grp := records.filter fun r => decide (parseYM r.date = some ym)
    { month := ym
      serviceIncome := sumBy Record.serviceIncome grp
      tip := sumBy Record.tip grp
      totalIncome := sumBy Record.totalIncome grp }

/-- One exported cell row of a per-month sheet: the ten Records columns, with
`none`/`""` standing for the blank cells of the synthetic totals row. -/
structure ExportRow where
  idCell : Option ℤ
  dateCell : String
  employeeCell : String
  clientCell : String
  serviceCell : String
  durationCell : Option ℤ
  hoursCell : Option ℚ
  serviceIncomeCell : Option ℚ
  tipCell : Option ℚ
  totalIncomeCell : Option ℚ
deriving DecidableEq, Repr

/-- A source record exported verbatim (the `_ym` helper column is dropped
before the sheet is written, src/app.py line 231). -/
def recordToRow (r : Record) : ExportRow :=
  { idCell := some r.id
    dateCell := r.date
    employeeCell := r.employeeName
    clientCell := r.clientName
    serviceCell := r.serviceType
    durationCell := some r.durationMinutes
    hoursCell := some r.hours
    serviceIncomeCell := some r.serviceIncome
    tipCell := some r.tip
    totalIncomeCell := some r.totalIncome }

/-- The synthetic 合计 (total) row, src/app.py lines 234-239: every cell
blank except 日期 = "合计" and the three monetary sums. -/
def totalRow (serviceSum tipSum totalSum : ℚ) : ExportRow :=
  { idCell := none
    dateCell := "合计"
    employeeCell := ""
    clientCell := ""
    serviceCell := ""
    durationCell := none
    hoursCell := none
    serviceIncomeCell := some serviceSum
    tipCell := some tipSum
    totalIncomeCell := some totalSum }

/-- `tmp[tmp["_ym"] == ym]`: the rows of one month, in original order. -/
def monthRows (records : List Record) (ym : String) : List Record :=
  records.filter fun r => decide (parseYM r.date = some ym)

/-- The per-month sheets of `to_excel_all_bytes`, src/app.py lines 229-247:
for each distinct month in ascending order, a sheet named by the `YYYY-MM`
string holding that month's rows followed by the 合计 row of column sums. -/
def monthSheets (records : List Record) : List (String × List ExportRow) :=
  (monthKeys records).map fun ym =>
    let grp := monthRows records ym
    (ym, grp.map recordToRow ++
      [totalRow (sumBy Record.serviceIncome grp) (sumBy Record.tip grp)
        (sumBy Record.totalIncome grp)])

/-- C6: in the full export there is exactly one per-month sheet for every
distinct year-month present in the data, the sheet names are pairwise
distinct and emitted in ascending lexicographic order, and each sheet holds
exactly that month's source rows (helper column removed) followed by exactly
one totals row whose 日期 cell is the "合计" marker, whose other non-monetary
cells are blank, and whose 服务收入/小费/总收入 cells are that month's column
sums. -/
theorem month_sheets_spec (records : List Record) :
    ((monthSheets records).map Prod.fst).Sorted (fun a b : String => a ≤ b) ∧
    ((monthSheets records).map Prod.fst).Nodup ∧
    (∀ ym : String, ym ∈ (monthSheets records).map Prod.fst ↔
      ∃ r ∈ records, parseYM r.date = some ym) ∧
    (∀ s ∈ monthSheets records,
      ∃ trow : ExportRow,
        s.2 = (monthRows records s.1).map recordToRow ++ [trow] ∧
        s.2.length = (monthRows records s.1).length + 1 ∧
        trow.dateCell = "合计" ∧
        trow.idCell = none ∧ trow.employeeCell = "" ∧ trow.clientCell = "" ∧
        trow.serviceCell = "" ∧ trow.durationCell = none ∧ trow.hoursCell = none ∧
        trow.serviceIncomeCell = some (sumBy Record.serviceIncome (monthRows records s.1)) ∧
        trow.tipCell = some (sumBy Record.tip (monthRows records s.1)) ∧
        trow.totalIncomeCell = some (sumBy Record.totalIncome (monthRows records s.1))) := by
  have hperm : List.Perm (monthKeys records)
      ((records.filterMap fun r => parseYM r.date).dedup) :=
    List.perm_insertionSort _ _
  have hfst : (monthSheets records).map Prod.fst = monthKeys records := by
    unfold monthSheets
    rw [List.map_map]
    exact List.map_id _ ▸ rfl
  refine ⟨?_, ?_, ?_, ?_⟩
  · rw [hfst]
    exact List.sorted_insertionSort _ _
  · rw [hfst]
    exact hperm.symm.nodup (List.nodup_dedup _)
  · intro ym
    rw [hfst, hperm.mem_iff, List.mem_dedup, List.mem_filterMap]
  · intro s hs
    unfold monthSheets at hs
    rw [List.mem_map] at hs
    obtain ⟨ym, _, rfl⟩ := hs
    exact ⟨totalRow (sumBy Record.serviceIncome (monthRows records ym))
      (sumBy Record.tip (monthRows records ym)) (sumBy Record.totalIncome (monthRows records ym)),
      rfl, by simp, rfl, rfl, rfl, rfl, rfl, rfl, rfl, rfl, rfl, rfl⟩

/-- C9: on an empty Records table both aggregation views — the Date×Employee
summary `make_summary` and the monthly summary — return the header-only empty
table (the fixed columns are the fields of `SummaryRow` and `MonthlyRow`),
and being total functions they never raise an error. -/
theorem empty_table_summaries :
    make_summary [] = [] ∧ monthly_summary [] = [] :=
  ⟨rfl, rfl⟩

/-- C10: for a non-empty Records table, `make_summary` lists its output rows
in ascending `pairLE` (lexicographic) order of the `(date, employeeName)`
grouping key, with pairwise distinct keys. -/
theorem summary_rows_sorted (records : List Record) (h : records ≠ []) :
    ((make_summary records).map fun s => (s.date, s.employeeName)).Sorted pairLE ∧
    ((make_summary records).map fun s => (s.date, s.employeeName)).Nodup := by
  have hne : records.isEmpty = false := by
    cases records with
    | nil => exact absurd rfl h
    | cons a l => rfl
  have hkeys : ((make_summary records).map fun s => (s.date, s.employeeName)) =
      groupKeys records := by
    unfold make_summary
    rw [hne]
    simp only [Bool.false_eq_true, if_false, List.map_map]
    have hcomp : ((fun s : SummaryRow => (s.date, s.employeeName)) ∘ summaryRowFor records) =
        fun k : String × String => k :=
      funext fun k => rfl
    rw [hcomp, List.map_id']
  rw [hkeys]
  exact ⟨List.sorted_insertionSort pairLE _,
    (List.perm_insertionSort pairLE _).symm.nodup (List.nodup_dedup _)⟩

/-- Witness for `summary_rows_sorted` on a concrete one-row table. -/
theorem summary_rows_sorted_witness :
    ([mkRecord 1 "2025-10-01" "A" "B" 60 65 0] : List Record) ≠ [] ∧
    (((make_summary [mkRecord 1 "2025-10-01" "A" "B" 60 65 0]).map
        fun s => (s.date, s.employeeName)).Sorted pairLE ∧
      ((make_summary [mkRecord 1 "2025-10-01" "A" "B" 60 65 0]).map
        fun s => (s.date, s.employeeName)).Nodup) := by
  have h : ([mkRecord 1 "2025-10-01" "A" "B" 60 65 0] : List Record) ≠ [] :=
    List.cons_ne_nil _ _
  exact ⟨h, summary_rows_sorted _ h⟩

end WorktimeTracker
